import Mathlib

/-!
Verification development for the MoodlewareAPI repository.

We shallowly embed the parts of the code the claims are about:

* `src/mw_utils/params.py` — the parameter encoder (`parse_list_value`,
  `encode_param`);
* `src/mw_utils/handlers.py` and `src/utils.py` — the proxy dispatcher
  (parameter building, token injection, outbound method/placement);
* `src/mw_utils/session.py` — the session store (`get_session`,
  `SessionData.__init__`);
* `src/routes/office_preview.py` — the one-time-token service
  (`generate_one_time_token`, `get_file_with_one_time_token`).

Python values are modelled by the inductive `PyVal`; Python dicts by
association lists with Python's insertion-order update semantics;
machine floats by rationals (the float branch is never exercised by the
theorems below); `json.loads` by an executable recursive-descent parser
over `List Char` (string escapes and numeric exponents are not modelled;
no theorem below touches those inputs).
-/

namespace Moodleware

/-- Python runtime values as they flow through the encoder and handlers. -/
inductive PyVal : Type
  | pyNone
  | pyBool (b : Bool)
  | pyInt (n : Int)
  | pyFloat (q : Rat)
  | pyStr (s : String)
  | pyList (xs : List PyVal)
  | pyDict (kvs : List (String × PyVal))

/-- Python truthiness (`bool(value)`). -/
def pyTruthy : PyVal → Bool
  | .pyNone => false
  | .pyBool b => b
  | .pyInt n => n != 0
  | .pyFloat q => q != 0
  | .pyStr s => s != ""
  | .pyList xs => !xs.isEmpty
  | .pyDict kvs => !kvs.isEmpty

/-- The whitespace set stripped by Python `str.strip()` (ASCII part). -/
def isPySpace (c : Char) : Bool :=
  c = ' ' || c = '\t' || c = '\n' || c = '\r' || c = '\x0b' || c = '\x0c'

/-- Strip leading and trailing whitespace from a character list. -/
def stripChars (cs : List Char) : List Char :=
  ((cs.dropWhile isPySpace).reverse.dropWhile isPySpace).reverse

/-- Python `str.strip()`. -/
def pyStrip (s : String) : String := String.mk (stripChars s.data)

/-- Python `str.lower()` (ASCII case fold, enough for the inputs used here). -/
def pyLower (s : String) : String := String.mk (s.data.map Char.toLower)

/-- Association-list update with Python dict semantics: replace in place
when the key exists, append otherwise. -/
def dictSet (m : List (String × PyVal)) (k : String) (v : PyVal) :
    List (String × PyVal) :=
  match m with
  | [] => [(k, v)]
  | (k0, v0) :: rest =>
      if k0 = k then (k, v) :: rest else (k0, v0) :: dictSet rest k v

/-- Association-list lookup (Python `dict.get`). -/
def dictGet (m : List (String × PyVal)) (k : String) : Option PyVal :=
  match m with
  | [] => none
  | (k0, v0) :: rest => if k0 = k then some v0 else dictGet rest k

/-- Python `k in dict`. -/
def dictHas (m : List (String × PyVal)) (k : String) : Bool :=
  (dictGet m k).isSome

/-- Decimal digits to a natural number. -/
def digitsToNat (cs : List Char) : Nat :=
  cs.foldl (fun acc c => acc * 10 + (c.toNat - 48)) 0

/-- Python `int(s)` on a string: strip, optional sign, decimal digits.
(Underscore separators and non-decimal bases are not modelled.) -/
def strToInt (s : String) : Option Int :=
  match stripChars s.data with
  | [] => none
  | c :: rest =>
      if c = '-' then
        if rest ≠ [] ∧ rest.all Char.isDigit then
          some (-(digitsToNat rest : Int))
        else none
      else if c = '+' then
        if rest ≠ [] ∧ rest.all Char.isDigit then
          some ((digitsToNat rest : Int))
        else none
      else if (c :: rest).all Char.isDigit then
        some ((digitsToNat (c :: rest) : Int))
      else none

/-- Python `float(s)` on a string: strip, optional sign, decimal literal
with optional fractional part. (Exponents, `inf`, `nan` are not modelled;
no theorem below exercises this function.) -/
def strToRat (s : String) : Option Rat :=
  let core : List Char → Option Rat := fun cs =>
    match cs.span Char.isDigit with
    | (intPart, rest) =>
      match rest with
      | [] => if intPart = [] then none else some ((digitsToNat intPart : Int) : Rat)
      | '.' :: frac =>
          if frac.all Char.isDigit ∧ (intPart ≠ [] ∨ frac ≠ []) then
            some (((digitsToNat intPart : Int) : Rat) +
              ((digitsToNat frac : Int) : Rat) / ((10 : Rat) ^ frac.length))
          else none
      | _ => none
  match stripChars s.data with
  | [] => none
  | '-' :: rest => (core rest).map (fun q => -q)
  | '+' :: rest => core rest
  | cs => core cs

/-- Python `int(value)`: `none` models a raised `TypeError`/`ValueError`. -/
def pyIntConv : PyVal → Option Int
  | .pyBool b => some (if b then 1 else 0)
  | .pyInt n => some n
  | .pyFloat q => some (if q < 0 then -((-q).floor) else q.floor)
  | .pyStr s => strToInt s
  | _ => none

/-- Python `float(value)`: `none` models a raised exception. -/
def pyFloatConv : PyVal → Option Rat
  | .pyBool b => some (if b then 1 else 0)
  | .pyInt n => some (n : Rat)
  | .pyFloat q => some q
  | .pyStr s => strToRat s
  | _ => none

/-! ### A model of `json.loads`

Recursive-descent parser over `List Char`, fuelled for termination.
The fuel passed by `jsonLoads` is large enough for every input
(each recursive call consumes fuel, and nesting consumes characters). -/

/-- JSON whitespace skip (the four JSON whitespace characters). -/
def skipWs : List Char → List Char
  | [] => []
  | c :: rest =>
      if c = ' ' ∨ c = '\t' ∨ c = '\n' ∨ c = '\r' then skipWs rest else c :: rest

/-- Body of a JSON string after the opening quote: plain characters up to
the closing quote. An escape (backslash) makes the model parser fail. -/
def parseJStrAux (acc : List Char) : List Char → Option (List Char × List Char)
  | [] => none
  | c :: rest =>
    if c = '"' then some (acc.reverse, rest)
    else if c = '\\' then none
    else parseJStrAux (c :: acc) rest

/-- A decimal digit `0`-`9`. -/
def isJDigit (c : Char) : Bool := 48 ≤ c.val.toNat ∧ c.val.toNat ≤ 57

/-- A JSON number lexeme: digits, optional fraction. Returns the value and
the remaining input. (Exponents are not modelled.) -/
def parseJNum (cs : List Char) : Option (PyVal × List Char) :=
  let signed : Bool := cs.head? = some '-'
  let body := if signed then cs.tail else cs
  match body.span isJDigit with
  | (intPart, rest) =>
    if intPart = [] then none
    else
      match rest with
      | '.' :: rest2 =>
          match rest2.span isJDigit with
          | (frac, rest3) =>
            if frac = [] then none
            else
              let q : Rat := ((digitsToNat intPart : Int) : Rat) +
                ((digitsToNat frac : Int) : Rat) / ((10 : Rat) ^ frac.length)
              some (.pyFloat (if signed then -q else q), rest3)
      | _ =>
          let n : Int := (digitsToNat intPart : Int)
          some (.pyInt (if signed then -n else n), rest)

/-- Consume the given literal characters from the front of the input. -/
def stripLiteral (lit cs : List Char) : Option (List Char) :=
  if cs.take lit.length = lit then some (cs.drop lit.length) else none

mutual

/-- One JSON value starting at `cs` (leading whitespace allowed). -/
def parseVal : Nat → List Char → Option (PyVal × List Char)
  | 0, _ => none
  | fu + 1, cs =>
    match skipWs cs with
    | [] => none
    | c :: rest =>
      if c = '"' then
        (parseJStrAux [] rest).map (fun p => (.pyStr (String.mk p.1), p.2))
      else if c = '[' then parseArr fu rest
      else if c = '{' then parseObj fu rest
      else if c = 't' then
        match stripLiteral ['r', 'u', 'e'] rest with
        | some r2 => some (.pyBool true, r2)
        | none => none
      else if c = 'f' then
        match stripLiteral ['a', 'l', 's', 'e'] rest with
        | some r2 => some (.pyBool false, r2)
        | none => none
      else if c = 'n' then
        match stripLiteral ['u', 'l', 'l'] rest with
        | some r2 => some (.pyNone, r2)
        | none => none
      else parseJNum (c :: rest)

/-- Array body after the opening bracket. -/
def parseArr : Nat → List Char → Option (PyVal × List Char)
  | 0, _ => none
  | fu + 1, cs =>
    match skipWs cs with
    | [] => none
    | c :: rest =>
      if c = ']' then some (.pyList [], rest)
      else (parseElems fu (c :: rest)).map (fun p => (.pyList p.1, p.2))

/-- One or more comma-separated array elements up to the closing bracket. -/
def parseElems : Nat → List Char → Option (List PyVal × List Char)
  | 0, _ => none
  | fu + 1, cs =>
    match parseVal fu cs with
    | none => none
    | some (v, r1) =>
      match skipWs r1 with
      | [] => none
      | c :: r2 =>
        if c = ',' then (parseElems fu r2).map (fun p => (v :: p.1, p.2))
        else if c = ']' then some ([v], r2)
        else none

/-- Object body after the opening brace. -/
def parseObj : Nat → List Char → Option (PyVal × List Char)
  | 0, _ => none
  | fu + 1, cs =>
    match skipWs cs with
    | [] => none
    | c :: rest =>
      if c = '}' then some (.pyDict [], rest)
      else (parseMembers fu (c :: rest)).map (fun p => (.pyDict p.1, p.2))

/-- One or more comma-separated object members up to the closing brace. -/
def parseMembers : Nat → List Char → Option (List (String × PyVal) × List Char)
  | 0, _ => none
  | fu + 1, cs =>
    match skipWs cs with
    | [] => none
    | c :: rest =>
      if c = '"' then
        match parseJStrAux [] rest with
        | none => none
        | some (kcs, r1) =>
          match skipWs r1 with
          | [] => none
          | c2 :: r2 =>
            if c2 = ':' then
              match parseVal fu r2 with
              | none => none
              | some (v, r3) =>
                match skipWs r3 with
                | [] => none
                | c3 :: r4 =>
                  if c3 = ',' then
                    (parseMembers fu r4).map
                      (fun p => ((String.mk kcs, v) :: p.1, p.2))
                  else if c3 = '}' then some ([(String.mk kcs, v)], r4)
                  else none
            else none
      else none

end

/-- `json.loads(s)`: parse one value, require only whitespace after it.
`none` models a raised `JSONDecodeError`. -/
def jsonLoads (s : String) : Option PyVal :=
  match parseVal (2 * s.data.length + 4) s.data with
  | some (v, rest) => if skipWs rest = [] then some v else none
  | none => none

/-! ### `params.py` -/

/-- Python `s.split(sep)` for a one-character separator (keeps empties). -/
def splitOnChar (sep : Char) (cs : List Char) : List (List Char) :=
  match cs with
  | [] => [[]]
  | c :: rest =>
    let r := splitOnChar sep rest
    if c = sep then [] :: r
    else
      match r with
      | h :: t => (c :: h) :: t
      | [] => [[c]]

/-- `parse_list_value` from `src/mw_utils/params.py` (identical in
`src/utils.py` as `_parse_list_value`): normalize a value of declared type
`list` into a Python list. -/
def parse_list_value (raw : PyVal) : List PyVal :=
  match raw with
  | .pyNone => []
  | .pyList xs => xs
  | .pyBool _ => [raw]
  | .pyInt _ => [raw]
  | .pyFloat _ => [raw]
  | .pyStr str =>
    let s := pyStrip str
    if s = "" then []
    else
      match jsonLoads s with
      | some (.pyList xs) => xs
      | some _ => [raw]
      | none =>
        if s.data.contains ',' then
          (((splitOnChar ',' s.data).map
              (fun p => String.mk (stripChars p))).filter
            (fun p => p ≠ "")).map .pyStr
        else [.pyStr s]
  | .pyDict _ => [raw]

/-- The accepted truthy strings for declared type `bool`. -/
def truthyStrings : List String := ["1", "true", "on", "yes"]

/-- The `bool` branch of `encode_param`: strings are stripped, lowered and
matched against the truthy set; everything else uses native truthiness. -/
def boolEncode (v : PyVal) : PyVal :=
  match v with
  | .pyStr s =>
      if truthyStrings.contains (pyLower (pyStrip s)) then .pyInt 1 else .pyInt 0
  | _ => if pyTruthy v then .pyInt 1 else .pyInt 0

/-- The flat key `name[idx]`. -/
def keyIdx (name : String) (idx : Nat) : String :=
  name ++ "[" ++ toString idx ++ "]"

/-- The flat key `base[k]`. -/
def keyField (base k : String) : String := base ++ "[" ++ k ++ "]"

/-- The inner-boolean coercion applied in the list-of-dicts branch. -/
def coerceInnerBool (v : PyVal) : PyVal :=
  match v with
  | .pyBool b => .pyInt (if b then 1 else 0)
  | _ => v

/-- The `for idx, item in enumerate(items)` loop of the `list` branch of
`encode_param`. -/
def encodeListLoop (name : String) :
    List (String × PyVal) → Nat → List PyVal → List (String × PyVal)
  | params, _, [] => params
  | params, idx, item :: rest =>
    let params2 :=
      match item with
      | .pyDict kvs =>
          kvs.foldl
            (fun p kv =>
              dictSet p (keyField (keyIdx name idx) kv.1) (coerceInnerBool kv.2))
            params
      | _ => dictSet params (keyIdx name idx) item
    encodeListLoop name params2 (idx + 1) rest

/-- `encode_param` from `src/mw_utils/params.py` (identical in
`src/utils.py` as `_encode_param`). Mutation of the `params` dict is made
explicit: the function returns the updated dict. -/
def encode_param (params : List (String × PyVal)) (name : String)
    (value : PyVal) (declared_type : String) : List (String × PyVal) :=
  let dtype := pyLower (if declared_type = "" then "str" else declared_type)
  if dtype = "bool" then
    dictSet params name (boolEncode value)
  else if dtype = "float" ∨ dtype = "double" then
    match pyFloatConv value with
    | some q => dictSet params name (.pyFloat q)
    | none => dictSet params name value
  else if dtype = "int" then
    match pyIntConv value with
    | some n => dictSet params name (.pyInt n)
    | none => dictSet params name value
  else if dtype = "list" then
    encodeListLoop name params 0 (parse_list_value value)
  else
    match value with
    | .pyDict kvs =>
        kvs.foldl (fun p kv => dictSet p (keyField name kv.1) kv.2) params
    | _ => dictSet params name value

/-! ### `handlers.py` / `utils.py` — the proxy dispatcher -/

/-- One declared parameter spec from the endpoint configuration
(`name`, `type`, `default`, `send_if_empty`). -/
structure ParamSpec where
  name : String
  ptype : String
  default : PyVal
  send_if_empty : Bool

/-- Python `value is None`. -/
def pyIsNone : PyVal → Bool
  | .pyNone => true
  | _ => false

/-- Python `value == ""` (false for every non-string value). -/
def pyIsEmptyStr : PyVal → Bool
  | .pyStr s => s = ""
  | _ => false

/-- Python `s.endswith(pat)`, computed on the character lists. -/
def strEndsWith (s pat : String) : Bool :=
  pat.data.reverse.isPrefixOf s.data.reverse

/-- Python `s.startswith(pat)`, computed on the character lists. -/
def strStartsWith (s pat : String) : Bool :=
  pat.data.isPrefixOf s.data

/-- `_is_auth_endpoint` from `src/mw_utils/handlers.py`. -/
def is_auth_endpoint (ep_path : String) : Bool :=
  strEndsWith ep_path "/login/token.php"

/-- The `ep_path` normalization in the handler: ensure a leading slash. -/
def slashPath (endpoint_path : String) : String :=
  if strStartsWith endpoint_path "/" then endpoint_path
  else "/" ++ endpoint_path

/-- The per-parameter encoding loop of `create_handler.handler`
(`src/mw_utils/handlers.py` lines 130-144): look the value up in the
request body (falling back to the configured default), encode it when it
is neither `None` nor the empty string, and encode an empty string instead
when the spec is flagged `send_if_empty`. -/
def buildParams (query_params : List ParamSpec)
    (body_dict : List (String × PyVal)) : List (String × PyVal) :=
  query_params.foldl
    (fun params p =>
      let value := (dictGet body_dict p.name).getD p.default
      if ¬ pyIsNone value ∧ ¬ pyIsEmptyStr value then
        encode_param params p.name value p.ptype
      else if p.send_if_empty then
        encode_param params p.name (.pyStr "") p.ptype
      else params)
    []

/-- Python `dict.setdefault(k, v)` (the resulting dict). -/
def setdefaultParam (params : List (String × PyVal)) (k : String)
    (v : PyVal) : List (String × PyVal) :=
  if dictHas params k then params else dictSet params k v

/-- Lines 146-149 of `src/mw_utils/handlers.py`: inject `wstoken` unless
the endpoint is the auth endpoint, and only when a token resolved
(`resolve_token_from_request` returns `""` when none was found). -/
def injectToken (params : List (String × PyVal)) (ep_path token : String) :
    List (String × PyVal) :=
  if ¬ is_auth_endpoint ep_path ∧ token ≠ "" then
    dictSet params "wstoken" (.pyStr token)
  else params

/-- Lines 151-153 of `src/mw_utils/handlers.py`: for the REST server
path, `setdefault` the function selector and the response format. -/
def injectRestDefaults (params : List (String × PyVal))
    (ep_path functionName : String) : List (String × PyVal) :=
  if strEndsWith ep_path "/webservice/rest/server.php" then
    setdefaultParam
      (setdefaultParam params "wsfunction" (.pyStr functionName))
      "moodlewsrestformat" (.pyStr "json")
  else params

/-- The parameter set sent upstream by `create_handler.handler`
(`src/mw_utils/handlers.py` lines 130-153): the encoded declared
parameters, then `wstoken` for non-auth endpoints when a token resolved,
then `wsfunction`/`moodlewsrestformat` via `setdefault` for the REST
server path. -/
def handlerParams (query_params : List ParamSpec)
    (body_dict : List (String × PyVal)) (endpoint_path : String)
    (token : String) (functionName : String) : List (String × PyVal) :=
  injectRestDefaults
    (injectToken (buildParams query_params body_dict)
      (slashPath endpoint_path) token)
    (slashPath endpoint_path) functionName

/-- Where the encoded parameters travel in the outbound request. -/
inductive Placement
  | queryString
  | formBody
deriving DecidableEq, Repr

/-- The outbound HTTP request shape: the wire method and the parameter
placement. -/
structure Dispatch where
  method : String
  placement : Placement
deriving DecidableEq, Repr

/-- The dispatch of `create_handler.handler` in `src/utils.py`
(lines 161-167): `GET` → query string, `POST` → form body,
`DELETE`/`HEAD` → query string with no body, anything else → form body. -/
def dispatchUtilsVariant (method : String) : Dispatch :=
  if method = "GET" then ⟨"GET", .queryString⟩
  else if method = "POST" then ⟨"POST", .formBody⟩
  else if method = "DELETE" ∨ method = "HEAD" then ⟨method, .queryString⟩
  else ⟨method, .formBody⟩

/-- The dispatch of `create_handler.handler` in `src/mw_utils/handlers.py`
(line 163): unconditionally `client.post(url, data=params)` — the declared
method is ignored. -/
def dispatchHandlersVariant (_method : String) : Dispatch :=
  ⟨"POST", .formBody⟩

/-- Modelled from the spec: the methods the claim calls
"idempotent/no-body" — the ones `src/utils.py` sends without a body. -/
def isNoBodyMethod (m : String) : Bool :=
  m = "DELETE" ∨ m = "HEAD"

/-- Modelled from the spec: the dispatch rule as the claim states it —
the outbound request uses the declared method, with query-string placement
for `GET` and idempotent/no-body methods and form-body placement for
`POST` and everything else. -/
def specDispatchRule (method : String) : Dispatch :=
  if method = "GET" then ⟨"GET", .queryString⟩
  else if method = "POST" then ⟨"POST", .formBody⟩
  else ⟨method, if isNoBodyMethod method then .queryString else .formBody⟩

/-! ### `session.py` — the session store -/

/-- `SESSION_MAX_AGE` (default: env var unset). -/
def SESSION_MAX_AGE : Nat := 14400

/-- The JSON document stored under `session:<id>` in Redis. -/
structure SessionJson where
  moodle_token : String
  moodle_url : String
  created_at : Nat
  last_accessed : Nat
deriving DecidableEq, Repr

/-- The in-memory session object handed to routes. -/
structure SessionData where
  session_id : String
  moodle_token : String
  moodle_url : String
  created_at : Nat
  last_accessed : Nat
deriving DecidableEq, Repr

/-- `SessionData.__init__` (`src/mw_utils/session.py` lines 42-47): note
that `last_accessed` is initialized to `created_at`. -/
def SessionData.init (session_id moodle_token moodle_url : String)
    (created_at : Nat) : SessionData :=
  ⟨session_id, moodle_token, moodle_url, created_at, created_at⟩

/-- Outcome of `serializer.loads(signed_session_id, max_age=...)`:
either the embedded session id, or a raised `SignatureExpired` /
`BadSignature`. -/
inductive SigResult
  | ok (session_id : String)
  | expired
  | bad
deriving DecidableEq, Repr

/-- Outcome of `redis.get` followed by `json.loads`: a well-formed record,
an unparseable payload, an absent key, or a raised backend error. -/
inductive FetchResult
  | value (sj : SessionJson)
  | corrupt
  | missing
  | backendError
deriving DecidableEq, Repr

/-- What `get_session` produced: the value returned to the caller, and
the refreshed record written back to the backend (key, record, TTL),
when the code reached the write. -/
structure GetSessionOutcome where
  result : Option SessionData
  writeBack : Option (String × SessionJson × Nat)
deriving DecidableEq, Repr

/-- `get_session` from `src/mw_utils/session.py` (lines 72-107). Every
failure path — uninitialized Redis client, bad or expired signature,
absent key, unparseable record, backend error on read or on the refresh
write — is absorbed by the `except` clauses and returns `None`; the
function raises nothing. On success the stored record gets its
`last_accessed` refreshed to `now` and is written back with a full TTL,
but the object returned is built by `SessionData.__init__` from
`created_at` alone. -/
def get_session (redisReady : Bool) (sig : SigResult) (fetch : FetchResult)
    (writeOk : Bool) (now : Nat) : GetSessionOutcome :=
  if ¬ redisReady then ⟨none, none⟩
  else
    match sig with
    | .bad => ⟨none, none⟩
    | .expired => ⟨none, none⟩
    | .ok sid =>
      match fetch with
      | .missing => ⟨none, none⟩
      | .corrupt => ⟨none, none⟩
      | .backendError => ⟨none, none⟩
      | .value sj =>
        let refreshed : SessionJson :=
          ⟨sj.moodle_token, sj.moodle_url, sj.created_at, now⟩
        if writeOk then
          ⟨some (SessionData.init sid sj.moodle_token sj.moodle_url
              sj.created_at),
            some ("session:" ++ sid, refreshed, SESSION_MAX_AGE)⟩
        else ⟨none, none⟩

/-- The `session_age` computed by `check_session`
(`src/routes/secure_auth.py` line 140). -/
def sessionAge (sd : SessionData) : Nat :=
  sd.last_accessed - sd.created_at

/-! ### `office_preview.py` — the one-time-token service -/

/-- `TOKEN_EXPIRY_SECONDS`. -/
def TOKEN_EXPIRY_SECONDS : Nat := 60

/-- The Redis key for a one-time token (`TOKEN_PREFIX` + token). -/
def tokenKey (token : String) : String := "ot_token:" ++ token

/-- The credential bundle stored under a one-time token. -/
structure TokenData where
  file_path : String
  moodle_url : String
  moodle_token : String
  session_id : String
deriving DecidableEq, Repr

/-- The token portion of the Redis store: key, bundle, absolute expiry
instant. A key is visible while `now < expiry` (Redis `EXPIRE`). -/
abbrev TokenStore : Type := List (String × TokenData × Nat)

/-- `hgetall` at time `now`: an expired or absent key reads as empty. -/
def storeLookup (st : TokenStore) (k : String) (now : Nat) :
    Option TokenData :=
  match st with
  | [] => none
  | (k0, d, e) :: rest =>
    if k0 = k then (if now < e then some d else none)
    else storeLookup rest k now

/-- `hset` + `expire`: write the bundle under the key with a fresh expiry
(overwriting any previous entry for the key). -/
def storeSet (st : TokenStore) (k : String) (d : TokenData) (e : Nat) :
    TokenStore :=
  match st with
  | [] => [(k, d, e)]
  | (k0, d0, e0) :: rest =>
    if k0 = k then (k, d, e) :: rest else (k0, d0, e0) :: storeSet rest k d e

/-- Redis `DELETE`. -/
def storeDelete (st : TokenStore) (k : String) : TokenStore :=
  st.filter (fun ent => ent.1 ≠ k)

/-- The response of `generate_one_time_token`. -/
structure IssueResult where
  token : String
  file_url : String
  expires_in : Nat
deriving DecidableEq, Repr

/-- `generate_one_time_token` from `src/routes/office_preview.py`
(lines 107-158): store the session's credentials and the file path under
a fresh token with a 60-second expiry and return the token. The random
`secrets.token_urlsafe(32)` draw is passed in as `newToken`. -/
def generate_one_time_token (st : TokenStore) (session : SessionData)
    (file_path : String) (newToken : String) (now : Nat) :
    TokenStore × IssueResult :=
  let key := tokenKey newToken
  let data : TokenData :=
    ⟨file_path, session.moodle_url, session.moodle_token, session.session_id⟩
  (storeSet st key data (now + TOKEN_EXPIRY_SECONDS),
    ⟨newToken, "/office/file?token=" ++ newToken, TOKEN_EXPIRY_SECONDS⟩)

/-- Outcome of the upstream `fetch_file_from_moodle` call. -/
inductive FetchOutcome
  | success (content : String) (contentType : String)
  | httpError (status : Nat)
  | networkError
deriving DecidableEq, Repr

/-- What the `/office/file` endpoint answered: the fetched file together
with the bundle that was consumed to fetch it, or an HTTP error. -/
inductive ConsumeResult
  | file (bundle : TokenData) (content : String) (contentType : String)
  | error (status : Nat) (detail : String)
deriving DecidableEq, Repr

/-- `get_file_with_one_time_token` from `src/routes/office_preview.py`
(lines 161-246), sequential view: `hgetall` the bundle (404 when absent
or expired), validate its fields (500 when any of `file_path`,
`moodle_url`, `moodle_token` is empty), `delete` the key, then fetch the
file from Moodle — the deletion happens before the fetch, so it takes
effect for every fetch outcome. Returns the response and the resulting
store. -/
def get_file_with_one_time_token (redisReady : Bool) (st : TokenStore)
    (token : String) (now : Nat) (fetch : FetchOutcome) :
    ConsumeResult × TokenStore :=
  if ¬ redisReady then (.error 503 "Redis unavailable", st)
  else
    let key := tokenKey token
    match storeLookup st key now with
    | none => (.error 404 "Token not found or expired", st)
    | some d =>
      if d.file_path = "" ∨ d.moodle_url = "" ∨ d.moodle_token = "" then
        (.error 500 "Invalid token data", st)
      else
        let st2 := storeDelete st key
        match fetch with
        | .success content ctype => (.file d content ctype, st2)
        | .httpError status =>
            (.error status "Failed to fetch file from Moodle", st2)
        | .networkError => (.error 502 "Failed to connect to Moodle", st2)

/-! ### Interleaving model for concurrent token consumption

`get_file_with_one_time_token` suspends at each `await`; in particular
between `redis_client.hgetall(token_key)` and `redis_client.delete(token_key)`
another task may run. We model a consuming task by its position relative
to that first suspension point: before the read, after the read holding
the read result, or finished. -/

/-- Control state of one task running the `/office/file` handler. -/
inductive TaskState
  | ready
  | readDone (r : Option TokenData)
  | finished (r : ConsumeResult)
deriving DecidableEq, Repr

/-- Two tasks (`A`, `B`) consuming against a shared store. -/
structure ConcState where
  store : TokenStore
  taskA : TaskState
  taskB : TaskState

/-- The step up to and including the `hgetall` await. -/
def consumeReadStep (st : TokenStore) (key : String) (now : Nat) :
    TaskState :=
  .readDone (storeLookup st key now)

/-- The remainder of the handler after the `hgetall` returned: the 404
check, the field validation, the `delete`, and the fetch. -/
def consumeRestStep (st : TokenStore) (key : String) (r : Option TokenData)
    (fetch : FetchOutcome) : TaskState × TokenStore :=
  match r with
  | none => (.finished (.error 404 "Token not found or expired"), st)
  | some d =>
    if d.file_path = "" ∨ d.moodle_url = "" ∨ d.moodle_token = "" then
      (.finished (.error 500 "Invalid token data"), st)
    else
      let st2 := storeDelete st key
      match fetch with
      | .success content ctype => (.finished (.file d content ctype), st2)
      | .httpError status =>
          (.finished (.error status "Failed to fetch file from Moodle"), st2)
      | .networkError =>
          (.finished (.error 502 "Failed to connect to Moodle"), st2)

/-- Scheduler choice. -/
inductive TaskId
  | A
  | B
deriving DecidableEq, Repr

/-- Run the chosen task for one step (a task at `readDone` performs the
rest of the handler; a finished task does nothing). Both tasks consume
the same `token` at time `now` with fetch outcome `fetch`. -/
def concStep (token : String) (now : Nat) (fetch : FetchOutcome)
    (σ : ConcState) (who : TaskId) : ConcState :=
  let key := tokenKey token
  match who with
  | .A =>
    match σ.taskA with
    | .ready => ⟨σ.store, consumeReadStep σ.store key now, σ.taskB⟩
    | .readDone r =>
      let (t, st2) := consumeRestStep σ.store key r fetch
      ⟨st2, t, σ.taskB⟩
    | .finished _ => σ
  | .B =>
    match σ.taskB with
    | .ready => ⟨σ.store, σ.taskA, consumeReadStep σ.store key now⟩
    | .readDone r =>
      let (t, st2) := consumeRestStep σ.store key r fetch
      ⟨st2, σ.taskA, t⟩
    | .finished _ => σ

/-- Run a schedule (list of task choices) from a starting state. -/
def runSchedule (token : String) (now : Nat) (fetch : FetchOutcome)
    (σ : ConcState) (sched : List TaskId) : ConcState :=
  sched.foldl (concStep token now fetch) σ

/-! ### Spec-side definitions used for comparison, and input shapes -/

/-- Modelled from the spec: the `bool` string rule exactly as the claim
states it — the string is case-folded and mapped to `1` exactly when the
case-folded string is in the truthy set (no whitespace stripping). -/
def claimedBoolStringRule (s : String) : PyVal :=
  if truthyStrings.contains (pyLower s) then .pyInt 1 else .pyInt 0

/-- A "simple token" for the list-shape equivalence: a nonempty string of
lowercase ASCII letters. Such a token survives comma-splitting, JSON
rendering and stripping unchanged. -/
def isLcLetter (c : Char) : Bool := 97 ≤ c.val.toNat ∧ c.val.toNat ≤ 122

/-- All characters of the token are lowercase letters and there is at
least one. -/
def simpleToken (t : String) : Bool :=
  !t.data.isEmpty && t.data.all isLcLetter

/-- The comma-separated input shape: `"a,b"` for tokens `["a","b"]`. -/
def commaJoinChars : List String → List Char
  | [] => []
  | [t] => t.data
  | t :: ts => t.data ++ ',' :: commaJoinChars ts

/-- The comma-separated input shape as a string. -/
def commaJoin (ts : List String) : String := String.mk (commaJoinChars ts)

/-- The element list of the JSON-array input shape (the characters
between the brackets): `"a","b"`. -/
def renderElems : List String → List Char
  | [] => []
  | [t] => '"' :: t.data ++ ['"']
  | t :: ts => '"' :: t.data ++ '"' :: ',' :: renderElems ts

/-- The JSON-array input shape: `["a","b"]` for tokens `["a","b"]`. -/
def renderJsonArr (ts : List String) : String :=
  String.mk ('[' :: renderElems ts ++ [']'])

/-! ## Lemmas about the dictionary and store models -/

theorem dictGet_dictSet_self (m : List (String × PyVal)) (k : String)
    (v : PyVal) : dictGet (dictSet m k v) k = some v := by
  induction m with
  | nil => simp [dictSet, dictGet]
  | cons hd tl ih =>
    obtain ⟨k0, v0⟩ := hd
    by_cases hk : k0 = k
    · simp [dictSet, dictGet, hk]
    · simp [dictSet, dictGet, hk, ih]

theorem dictGet_dictSet_ne (m : List (String × PyVal)) (k k2 : String)
    (v : PyVal) (hne : k2 ≠ k) :
    dictGet (dictSet m k v) k2 = dictGet m k2 := by
  induction m with
  | nil => simp [dictSet, dictGet, Ne.symm hne]
  | cons hd tl ih =>
    obtain ⟨k0, v0⟩ := hd
    by_cases hk : k0 = k <;> by_cases hk2 : k0 = k2 <;>
      simp_all [dictSet, dictGet, Ne.symm hne]

theorem dictSet_eq_append (m : List (String × PyVal)) (k : String)
    (v : PyVal) (h : dictGet m k = none) : dictSet m k v = m ++ [(k, v)] := by
  induction m with
  | nil => simp [dictSet]
  | cons hd tl ih =>
    obtain ⟨k0, v0⟩ := hd
    by_cases hk : k0 = k
    · simp [dictGet, hk] at h
    · simp [dictGet, hk] at h
      simp [dictSet, hk, ih h]

theorem dictGet_append_none (a b : List (String × PyVal)) (k : String)
    (h : dictGet a k = none) : dictGet (a ++ b) k = dictGet b k := by
  induction a with
  | nil => simp
  | cons hd tl ih =>
    obtain ⟨k0, v0⟩ := hd
    by_cases hk : k0 = k
    · simp [dictGet, hk] at h
    · simp [dictGet, hk] at h ⊢
      exact ih h

theorem foldl_dictSet_fresh (l : List (String × PyVal))
    (init : List (String × PyVal))
    (hfresh : ∀ kv ∈ l, dictGet init kv.1 = none)
    (hnd : (l.map Prod.fst).Nodup) :
    l.foldl (fun p kv => dictSet p kv.1 kv.2) init = init ++ l := by
  induction l generalizing init with
  | nil => simp
  | cons kv rest ih =>
    obtain ⟨k, v⟩ := kv
    simp only [List.foldl_cons]
    rw [dictSet_eq_append _ _ _ (hfresh (k, v) (by simp))]
    rw [ih (init ++ [(k, v)])]
    · simp
    · intro kv2 hkv2
      have hne : kv2.1 ≠ k := by
        simp only [List.map_cons, List.nodup_cons] at hnd
        intro hc
        exact hnd.1 (hc ▸ List.mem_map_of_mem Prod.fst hkv2)
      rw [dictGet_append_none _ _ _ (hfresh kv2 (List.mem_cons_of_mem _ hkv2))]
      simp [dictGet, Ne.symm hne]
    · exact (List.nodup_cons.mp (by simpa using hnd)).2

theorem keyField_injective (base : String) :
    Function.Injective (keyField base) := by
  intro a b h
  have hd := congrArg String.data h
  simp only [keyField, String.data_append, List.append_assoc] at hd
  have h2 := List.append_cancel_left hd
  have h3 := List.append_cancel_left h2
  have h4 := List.append_cancel_right h3
  exact congrArg String.mk h4

theorem storeLookup_storeSet_self (st : TokenStore) (k : String)
    (d : TokenData) (e now : Nat) :
    storeLookup (storeSet st k d e) k now =
      if now < e then some d else none := by
  induction st with
  | nil => simp [storeSet, storeLookup]
  | cons hd tl ih =>
    obtain ⟨k0, d0, e0⟩ := hd
    by_cases hk : k0 = k
    · simp [storeSet, storeLookup, hk]
    · simp [storeSet, storeLookup, hk, ih]

theorem storeLookup_storeDelete_self (st : TokenStore) (k : String)
    (now : Nat) : storeLookup (storeDelete st k) k now = none := by
  induction st with
  | nil => simp [storeDelete, storeLookup]
  | cons hd tl ih =>
    obtain ⟨k0, d0, e0⟩ := hd
    by_cases hk : k0 = k
    · simpa [storeDelete, hk] using ih
    · simpa [storeDelete, storeLookup, hk] using ih

/-! ## Claim C4 -/

/-- C4, counterexample: the live dispatcher (`src/mw_utils/handlers.py`)
does not use the declared method — a `GET`-declared endpoint is dispatched
as `POST` with a form body, not as `GET` with a query string as the claim
states. -/
theorem dispatch_declared_method_cex :
    dispatchHandlersVariant "GET" ≠ specDispatchRule "GET" := by
  decide

/-- C4, amended: the declared-method placement rule (GET → query string,
POST → form body, DELETE/HEAD → query string, other → form body) holds of
the historical dispatcher in `src/utils.py`; the live dispatcher in
`src/mw_utils/handlers.py` instead always issues `POST` with a
form-encoded body, regardless of the declared method. -/
theorem dispatch_method_placement_amended :
    (∀ m, dispatchUtilsVariant m = specDispatchRule m) ∧
    (∀ m, dispatchHandlersVariant m = ⟨"POST", .formBody⟩) := by
  constructor
  · intro m
    by_cases h1 : m = "GET"
    · simp [dispatchUtilsVariant, specDispatchRule, h1]
    · by_cases h2 : m = "POST"
      · simp [dispatchUtilsVariant, specDispatchRule, h1, h2]
      · by_cases h3 : m = "DELETE" ∨ m = "HEAD" <;>
          simp [dispatchUtilsVariant, specDispatchRule, isNoBodyMethod,
            h1, h2, h3]
  · intro m
    rfl

/-! ## Claim C5 -/

/-- C5, counterexample: on the string `" TRUE"` the encoder strips the
whitespace before case-folding and writes `1`, while the claim's rule
(case-fold only, match against the truthy set) prescribes `0`. -/
theorem bool_casefold_strip_cex :
    encode_param [] "x" (.pyStr " TRUE") "bool" = [("x", .pyInt 1)] ∧
    claimedBoolStringRule " TRUE" = .pyInt 0 ∧
    (PyVal.pyInt 1) ≠ (PyVal.pyInt 0) :=
  ⟨rfl, rfl, by simp⟩

/-- C5, amended: a value of declared type `bool` always encodes to the
number `1` or the number `0` under the parameter name (never a string);
a string input is first stripped of surrounding whitespace, then
case-folded, and maps to `1` exactly when the result is in the truthy set
`{"1","true","on","yes"}`; non-strings map via native truthiness. -/
theorem bool_encode_one_or_zero_amended :
    (∀ (p : List (String × PyVal)) (n : String) (v : PyVal),
      encode_param p n v "bool" = dictSet p n (.pyInt 1) ∨
      encode_param p n v "bool" = dictSet p n (.pyInt 0)) ∧
    (∀ (p : List (String × PyVal)) (n s : String),
      encode_param p n (.pyStr s) "bool" =
        dictSet p n (if truthyStrings.contains (pyLower (pyStrip s))
          then .pyInt 1 else .pyInt 0)) ∧
    (∀ (p : List (String × PyVal)) (n : String) (v : PyVal),
      encode_param p n v "bool" =
        dictSet p n (if pyTruthy v then .pyInt 1 else .pyInt 0) ∨
      (∃ s, v = .pyStr s)) := by
  have hb : ∀ (p : List (String × PyVal)) (n : String) (v : PyVal),
      encode_param p n v "bool" = dictSet p n (boolEncode v) :=
    fun _ _ _ => rfl
  refine ⟨fun p n v => ?_, fun p n s => ?_, fun p n v => ?_⟩
  · rw [hb]
    cases v <;> simp only [boolEncode] <;> split <;> simp
  · rw [hb]
    simp [boolEncode]
  · cases v <;> simp [hb, boolEncode]

/-! ## Claim C8 -/

/-- C8: every failure mode of `get_session` — uninitialized backend
client, bad signature, expired signature window, absent backing record,
unparseable record, backend error — yields the "no session" result
(`None`); within this model the function is total and returns through
`GetSessionOutcome`, never raising. -/
theorem get_session_fails_closed (redisReady : Bool) (sig : SigResult)
    (fetch : FetchResult) (writeOk : Bool) (now : Nat)
    (h : redisReady = false ∨ sig = .bad ∨ sig = .expired ∨
      fetch = .missing ∨ fetch = .corrupt ∨ fetch = .backendError) :
    (get_session redisReady sig fetch writeOk now).result = none := by
  cases redisReady <;> cases sig <;> cases fetch <;> cases writeOk <;>
    simp_all [get_session]

/-- C8, witness. -/
theorem get_session_fails_closed_witness :
    ((false : Bool) = false ∨ SigResult.bad = .bad ∨ SigResult.bad = .expired ∨
      FetchResult.missing = .missing ∨ FetchResult.missing = .corrupt ∨
      FetchResult.missing = .backendError) ∧
    (get_session false .bad .missing true 5).result = none :=
  ⟨Or.inl rfl, get_session_fails_closed false .bad .missing true 5 (Or.inl rfl)⟩

/-! ## Claim C10 -/

/-- C10: when `get_session` succeeds, the returned record has
`last_accessed` equal to `created_at` (so the `session_age` computed by
`check_session` is always `0`), while the refreshed `last_accessed = now`
is only written back to the backing store. -/
theorem get_session_age_zero (r : Bool) (sig : SigResult)
    (fetch : FetchResult) (w : Bool) (now : Nat) (sd : SessionData)
    (h : (get_session r sig fetch w now).result = some sd) :
    sd.last_accessed = sd.created_at ∧ sessionAge sd = 0 ∧
    ∃ k sj ttl, (get_session r sig fetch w now).writeBack = some (k, sj, ttl) ∧
      sj.last_accessed = now := by
  cases r with
  | false => simp [get_session] at h
  | true =>
    cases sig with
    | bad => simp [get_session] at h
    | expired => simp [get_session] at h
    | ok sid =>
      cases fetch with
      | missing => simp [get_session] at h
      | corrupt => simp [get_session] at h
      | backendError => simp [get_session] at h
      | value sj =>
        cases w with
        | false => simp [get_session] at h
        | true =>
          simp [get_session] at h
          subst h
          exact ⟨rfl, by simp [sessionAge, SessionData.init],
            "session:" ++ sid,
            ⟨sj.moodle_token, sj.moodle_url, sj.created_at, now⟩,
            SESSION_MAX_AGE, rfl, rfl⟩

/-- C10, witness. -/
theorem get_session_age_zero_witness :
    (get_session true (.ok "sid") (.value ⟨"tk", "url", 100, 100⟩) true 777).result =
      some ⟨"sid", "tk", "url", 100, 100⟩ ∧
    (⟨"sid", "tk", "url", 100, 100⟩ : SessionData).last_accessed =
      (⟨"sid", "tk", "url", 100, 100⟩ : SessionData).created_at ∧
    sessionAge ⟨"sid", "tk", "url", 100, 100⟩ = 0 ∧
    ∃ k sj ttl,
      (get_session true (.ok "sid") (.value ⟨"tk", "url", 100, 100⟩) true 777).writeBack =
        some (k, sj, ttl) ∧ sj.last_accessed = 777 := by
  refine ⟨rfl, ?_⟩
  have := get_session_age_zero true (.ok "sid") (.value ⟨"tk", "url", 100, 100⟩)
    true 777 ⟨"sid", "tk", "url", 100, 100⟩ rfl
  exact ⟨this.1, this.2.1, this.2.2⟩

theorem consume_success (st : TokenStore) (tok : String) (now : Nat)
    (d : TokenData) (c ct : String)
    (hl : storeLookup st (tokenKey tok) now = some d)
    (h1 : d.file_path ≠ "") (h2 : d.moodle_url ≠ "") (h3 : d.moodle_token ≠ "") :
    get_file_with_one_time_token true st tok now (.success c ct) =
      (.file d c ct, storeDelete st (tokenKey tok)) := by
  simp [get_file_with_one_time_token, hl, h1, h2, h3]

theorem consume_notFound (st : TokenStore) (tok : String) (now : Nat)
    (f : FetchOutcome) (hl : storeLookup st (tokenKey tok) now = none) :
    get_file_with_one_time_token true st tok now f =
      (.error 404 "Token not found or expired", st) := by
  simp [get_file_with_one_time_token, hl]

/-! ## Claim C1 -/

/-- C1, refuted (code bug): consumption is not atomic with deletion.
`get_file_with_one_time_token` reads the record (`hgetall`) and deletes
it (`delete`) in two separate awaited backend calls, so two tasks that
both pass the read before either deletes both succeed for the same token
(schedule `A-read, B-read, A-rest, B-rest`), while a sequential schedule
(`A-read, A-rest, B-read, B-rest`) gives the second consumer 404. -/
theorem one_time_token_double_consume_interleaving :
    (runSchedule "tkn" 10 (.success "bytes" "application/pdf")
        ⟨[(tokenKey "tkn", ⟨"/doc.pdf", "http://m", "mt", "sid"⟩, 60)],
          .ready, .ready⟩
        [.A, .B, .A, .B]).taskA =
      .finished (.file ⟨"/doc.pdf", "http://m", "mt", "sid"⟩ "bytes"
        "application/pdf") ∧
    (runSchedule "tkn" 10 (.success "bytes" "application/pdf")
        ⟨[(tokenKey "tkn", ⟨"/doc.pdf", "http://m", "mt", "sid"⟩, 60)],
          .ready, .ready⟩
        [.A, .B, .A, .B]).taskB =
      .finished (.file ⟨"/doc.pdf", "http://m", "mt", "sid"⟩ "bytes"
        "application/pdf") ∧
    (runSchedule "tkn" 10 (.success "bytes" "application/pdf")
        ⟨[(tokenKey "tkn", ⟨"/doc.pdf", "http://m", "mt", "sid"⟩, 60)],
          .ready, .ready⟩
        [.A, .A, .B, .B]).taskB =
      .finished (.error 404 "Token not found or expired") :=
  ⟨rfl, rfl, rfl⟩

/-! ## Claim C2 -/

/-- C2: a token issued for a session with nonempty credentials and a
nonempty resource path, consumed before its 60-second expiry, returns the
original stored bundle; a second sequential consume of the same token,
a consume of a token absent from the store (never issued), and a consume
after expiry all return the identical `404 "Token not found or expired"`
response. -/
theorem one_time_token_issue_consume (st : TokenStore) (sess : SessionData)
    (fp tok : String) (t1 t2 t3 : Nat) (c ct : String) (f2 f3 : FetchOutcome)
    (hfp : fp ≠ "") (hurl : sess.moodle_url ≠ "") (htk : sess.moodle_token ≠ "")
    (ht2 : t2 < t1 + TOKEN_EXPIRY_SECONDS) :
    (get_file_with_one_time_token true
        (generate_one_time_token st sess fp tok t1).1 tok t2 (.success c ct)).1 =
      .file ⟨fp, sess.moodle_url, sess.moodle_token, sess.session_id⟩ c ct ∧
    (get_file_with_one_time_token true
        (get_file_with_one_time_token true
          (generate_one_time_token st sess fp tok t1).1 tok t2
          (.success c ct)).2 tok t3 f3).1 =
      .error 404 "Token not found or expired" ∧
    (∀ (st0 : TokenStore) (tn : Nat),
      storeLookup st0 (tokenKey tok) tn = none →
      (get_file_with_one_time_token true st0 tok tn f2).1 =
        .error 404 "Token not found or expired") ∧
    (∀ te, t1 + TOKEN_EXPIRY_SECONDS ≤ te →
      (get_file_with_one_time_token true
          (generate_one_time_token st sess fp tok t1).1 tok te f2).1 =
        .error 404 "Token not found or expired") := by
  have hkey : storeLookup (generate_one_time_token st sess fp tok t1).1
      (tokenKey tok) t2 =
      some ⟨fp, sess.moodle_url, sess.moodle_token, sess.session_id⟩ := by
    simp [generate_one_time_token, storeLookup_storeSet_self, ht2]
  have hfirst := consume_success _ tok t2
    ⟨fp, sess.moodle_url, sess.moodle_token, sess.session_id⟩ c ct hkey
    hfp hurl htk
  refine ⟨by rw [hfirst], ?_, ?_, ?_⟩
  · rw [hfirst]
    exact congrArg Prod.fst
      (consume_notFound _ tok t3 f3 (storeLookup_storeDelete_self _ _ _))
  · intro st0 tn hl
    exact congrArg Prod.fst (consume_notFound st0 tok tn f2 hl)
  · intro te hte
    have hl : storeLookup (generate_one_time_token st sess fp tok t1).1
        (tokenKey tok) te = none := by
      simp [generate_one_time_token, storeLookup_storeSet_self,
        Nat.not_lt.mpr hte]
    exact congrArg Prod.fst (consume_notFound _ tok te f2 hl)

/-- C2, witness. -/
theorem one_time_token_issue_consume_witness :
    (("/f.pdf" : String) ≠ "" ∧ ("http://m" : String) ≠ "" ∧
      ("mt" : String) ≠ "" ∧ 10 < 0 + TOKEN_EXPIRY_SECONDS) ∧
    ((get_file_with_one_time_token true
        (generate_one_time_token [] ⟨"sid", "mt", "http://m", 0, 0⟩
          "/f.pdf" "t" 0).1 "t" 10 (.success "b" "ct")).1 =
      .file ⟨"/f.pdf", "http://m", "mt", "sid"⟩ "b" "ct" ∧
    (get_file_with_one_time_token true
        (get_file_with_one_time_token true
          (generate_one_time_token [] ⟨"sid", "mt", "http://m", 0, 0⟩
            "/f.pdf" "t" 0).1 "t" 10 (.success "b" "ct")).2 "t" 20
        .networkError).1 = .error 404 "Token not found or expired" ∧
    (∀ (st0 : TokenStore) (tn : Nat),
      storeLookup st0 (tokenKey "t") tn = none →
      (get_file_with_one_time_token true st0 "t" tn .networkError).1 =
        .error 404 "Token not found or expired") ∧
    (∀ te, 0 + TOKEN_EXPIRY_SECONDS ≤ te →
      (get_file_with_one_time_token true
          (generate_one_time_token [] ⟨"sid", "mt", "http://m", 0, 0⟩
            "/f.pdf" "t" 0).1 "t" te .networkError).1 =
        .error 404 "Token not found or expired")) :=
  ⟨⟨by decide, by decide, by decide, by decide⟩,
    one_time_token_issue_consume [] ⟨"sid", "mt", "http://m", 0, 0⟩
      "/f.pdf" "t" 0 10 20 "b" "ct" .networkError .networkError
      (by decide) (by decide) (by decide) (by decide)⟩

/-! ## Claim C3 -/

/-- C3, counterexample: the record is destroyed even when the consume
fails after the lookup. A token issued at time 0 and consumed at time 10
with a failing upstream fetch answers 502, yet a retry at time 20 (well
before the 60-second expiry) already gets 404 — the record did not
"remain usable until its fixed expiry". -/
theorem token_destroyed_on_failed_fetch_cex :
    (get_file_with_one_time_token true
        (generate_one_time_token [] ⟨"sid", "mt", "http://m", 0, 0⟩
          "/doc.docx" "tkn" 0).1 "tkn" 10 .networkError).1 =
      .error 502 "Failed to connect to Moodle" ∧
    (get_file_with_one_time_token true
        (get_file_with_one_time_token true
          (generate_one_time_token [] ⟨"sid", "mt", "http://m", 0, 0⟩
            "/doc.docx" "tkn" 0).1 "tkn" 10 .networkError).2 "tkn" 20
        (.success "b" "ct")).1 = .error 404 "Token not found or expired" ∧
    20 < 0 + TOKEN_EXPIRY_SECONDS :=
  ⟨rfl, rfl, by decide⟩

/-- C3, amended: the record is destroyed on the first consume attempt
whose lookup succeeds and whose stored fields pass validation — the
deletion precedes the upstream fetch, so it happens for every fetch
outcome, including failing ones — or on TTL expiry; only a consume that
fails before the deletion (absent or expired token, or invalid stored
fields) leaves the store unchanged. -/
theorem token_deleted_before_fetch (st : TokenStore) (tok : String)
    (now : Nat) (f : FetchOutcome) (d : TokenData)
    (hl : storeLookup st (tokenKey tok) now = some d)
    (h1 : d.file_path ≠ "") (h2 : d.moodle_url ≠ "") (h3 : d.moodle_token ≠ "") :
    (get_file_with_one_time_token true st tok now f).2 =
      storeDelete st (tokenKey tok) ∧
    storeLookup (get_file_with_one_time_token true st tok now f).2
      (tokenKey tok) now = none ∧
    (∀ (st0 : TokenStore) (t0 : Nat) (f0 : FetchOutcome),
      storeLookup st0 (tokenKey tok) t0 = none →
      (get_file_with_one_time_token true st0 tok t0 f0).2 = st0) ∧
    (∀ (st0 : TokenStore) (t0 : Nat) (f0 : FetchOutcome) (d0 : TokenData),
      storeLookup st0 (tokenKey tok) t0 = some d0 →
      (d0.file_path = "" ∨ d0.moodle_url = "" ∨ d0.moodle_token = "") →
      (get_file_with_one_time_token true st0 tok t0 f0).2 = st0) := by
  have hdel : (get_file_with_one_time_token true st tok now f).2 =
      storeDelete st (tokenKey tok) := by
    cases f <;> simp [get_file_with_one_time_token, hl, h1, h2, h3]
  refine ⟨hdel, ?_, ?_, ?_⟩
  · rw [hdel]
    exact storeLookup_storeDelete_self _ _ _
  · intro st0 t0 f0 hl0
    simp [get_file_with_one_time_token, hl0]
  · intro st0 t0 f0 d0 hl0 hbad
    simp [get_file_with_one_time_token, hl0, hbad]

/-- C3, amended, witness. -/
theorem token_deleted_before_fetch_witness :
    (storeLookup [(tokenKey "t", ⟨"/f", "http://m", "mt", "sid"⟩, 60)]
        (tokenKey "t") 10 = some ⟨"/f", "http://m", "mt", "sid"⟩ ∧
      ("/f" : String) ≠ "" ∧ ("http://m" : String) ≠ "" ∧
      ("mt" : String) ≠ "") ∧
    ((get_file_with_one_time_token true
        [(tokenKey "t", ⟨"/f", "http://m", "mt", "sid"⟩, 60)] "t" 10
        .networkError).2 =
      storeDelete [(tokenKey "t", ⟨"/f", "http://m", "mt", "sid"⟩, 60)]
        (tokenKey "t") ∧
    storeLookup (get_file_with_one_time_token true
        [(tokenKey "t", ⟨"/f", "http://m", "mt", "sid"⟩, 60)] "t" 10
        .networkError).2 (tokenKey "t") 10 = none ∧
    (∀ (st0 : TokenStore) (t0 : Nat) (f0 : FetchOutcome),
      storeLookup st0 (tokenKey "t") t0 = none →
      (get_file_with_one_time_token true st0 "t" t0 f0).2 = st0) ∧
    (∀ (st0 : TokenStore) (t0 : Nat) (f0 : FetchOutcome) (d0 : TokenData),
      storeLookup st0 (tokenKey "t") t0 = some d0 →
      (d0.file_path = "" ∨ d0.moodle_url = "" ∨ d0.moodle_token = "") →
      (get_file_with_one_time_token true st0 "t" t0 f0).2 = st0)) :=
  ⟨⟨by decide, by decide, by decide, by decide⟩,
    token_deleted_before_fetch
      [(tokenKey "t", ⟨"/f", "http://m", "mt", "sid"⟩, 60)] "t" 10
      .networkError ⟨"/f", "http://m", "mt", "sid"⟩ (by decide) (by decide)
      (by decide) (by decide)⟩

/-! ## Claim C7 -/

/-- C7: the encoder's recursion depth is asymmetric. A keyed structure
inside a declared `list` is flattened to one key `name[idx][key]` per
inner field with inner booleans coerced to `1`/`0`; a keyed structure not
declared as `list` is flattened to one key `name[key]` per field with
every value — booleans and nested composites included — passed through
unchanged. The two concrete conjuncts exhibit the example from the claim
and the absence of coercion/recursion on the plain keyed path. -/
theorem encode_recursion_asymmetry (n : String)
    (kvs kvs2 : List (String × PyVal))
    (hnd : (kvs.map Prod.fst).Nodup) (hnd2 : (kvs2.map Prod.fst).Nodup) :
    encode_param [] n (.pyList [.pyDict kvs]) "list" =
      kvs.map (fun kv => (keyField (keyIdx n 0) kv.1, coerceInnerBool kv.2)) ∧
    encode_param [] n (.pyDict kvs2) "str" =
      kvs2.map (fun kv => (keyField n kv.1, kv.2)) ∧
    encode_param [] "opts"
        (.pyList [.pyDict [("id", .pyInt 1), ("done", .pyBool true)]]) "list" =
      [("opts[0][id]", .pyInt 1), ("opts[0][done]", .pyInt 1)] ∧
    encode_param [] "p"
        (.pyDict [("flag", .pyBool true),
          ("sub", .pyDict [("x", .pyBool true)])]) "str" =
      [("p[flag]", .pyBool true),
        ("p[sub]", .pyDict [("x", .pyBool true)])] := by
  have habs : ∀ (base : String) (l : List (String × PyVal))
      (g : PyVal → PyVal), ((l.map Prod.fst).Nodup) →
      l.foldl (fun p kv => dictSet p (keyField base kv.1) (g kv.2)) [] =
        l.map (fun kv => (keyField base kv.1, g kv.2)) := by
    intro base l g hl
    have h1 : l.foldl (fun p kv => dictSet p (keyField base kv.1) (g kv.2)) [] =
        (l.map (fun kv => (keyField base kv.1, g kv.2))).foldl
          (fun p kv => dictSet p kv.1 kv.2) [] := by
      rw [List.foldl_map]
    rw [h1, foldl_dictSet_fresh]
    · simp
    · intro kv _
      simp [dictGet]
    · have hmap : (l.map (fun kv => (keyField base kv.1, g kv.2))).map
          Prod.fst = (l.map Prod.fst).map (keyField base) := by
        simp [List.map_map, Function.comp]
      rw [hmap]
      exact hl.map (keyField_injective base)
  refine ⟨?_, ?_, rfl, rfl⟩
  · have e1 : encode_param [] n (.pyList [.pyDict kvs]) "list" =
        kvs.foldl (fun p kv =>
          dictSet p (keyField (keyIdx n 0) kv.1) (coerceInnerBool kv.2)) [] :=
      rfl
    rw [e1, habs _ _ _ hnd]
  · have e2 : encode_param [] n (.pyDict kvs2) "str" =
        kvs2.foldl (fun p kv => dictSet p (keyField n kv.1) kv.2) [] := rfl
    rw [e2]
    have := habs n kvs2 id hnd2
    simpa using this

/-- C7, witness. -/
theorem encode_recursion_asymmetry_witness :
    ((((["id", "done"] : List String)).Nodup ∧
      ((["a"] : List String)).Nodup) ∧
    (encode_param [] "opts"
        (.pyList [.pyDict [("id", .pyInt 1), ("done", .pyBool true)]])
        "list" =
      [("id", PyVal.pyInt 1), ("done", PyVal.pyBool true)].map
        (fun kv => (keyField (keyIdx "opts" 0) kv.1, coerceInnerBool kv.2)) ∧
    encode_param [] "opts" (.pyDict [("a", .pyBool false)]) "str" =
      [("a", PyVal.pyBool false)].map (fun kv => (keyField "opts" kv.1, kv.2)) ∧
    encode_param [] "opts"
        (.pyList [.pyDict [("id", .pyInt 1), ("done", .pyBool true)]]) "list" =
      [("opts[0][id]", .pyInt 1), ("opts[0][done]", .pyInt 1)] ∧
    encode_param [] "p"
        (.pyDict [("flag", .pyBool true),
          ("sub", .pyDict [("x", .pyBool true)])]) "str" =
      [("p[flag]", .pyBool true),
        ("p[sub]", .pyDict [("x", .pyBool true)])])) :=
  ⟨⟨by decide, by decide⟩,
    encode_recursion_asymmetry "opts"
      [("id", .pyInt 1), ("done", .pyBool true)] [("a", .pyBool false)]
      (by simp) (by simp)⟩

/-! ## Claim C9 -/

/-- C9: for every dispatched call whose (slash-normalized) path is not
the authentication endpoint, a resolved (nonempty) token is injected as
`wstoken`; for the generic REST server path, `wsfunction` and
`moodlewsrestformat` are injected only when the caller did not already
encode them; a call to the REST server path for
`core_webservice_get_site_info` with a valid token and no declared
parameters encodes exactly `wstoken`, `wsfunction` and
`moodlewsrestformat=json` and nothing else. -/
theorem dictGet_setdefault_ne (p : List (String × PyVal)) (k k2 : String)
    (v : PyVal) (hne : k2 ≠ k) :
    dictGet (setdefaultParam p k v) k2 = dictGet p k2 := by
  unfold setdefaultParam
  split
  · rfl
  · exact dictGet_dictSet_ne _ _ _ _ hne

theorem dictGet_setdefault_present (p : List (String × PyVal)) (k : String)
    (v w : PyVal) (h : dictGet p k = some v) :
    dictGet (setdefaultParam p k w) k = some v := by
  unfold setdefaultParam
  split
  · exact h
  · rename_i hna
    exact absurd (by simp [dictHas, h]) hna

theorem handler_token_injection :
    (∀ (qs : List ParamSpec) (bd : List (String × PyVal)) (ep tok fn : String),
      is_auth_endpoint (slashPath ep) = false → tok ≠ "" →
      dictGet (handlerParams qs bd ep tok fn) "wstoken" =
        some (.pyStr tok)) ∧
    (∀ (qs : List ParamSpec) (bd : List (String × PyVal))
      (ep tok fn : String) (v : PyVal),
      dictGet (buildParams qs bd) "wsfunction" = some v →
      dictGet (handlerParams qs bd ep tok fn) "wsfunction" = some v) ∧
    (∀ (qs : List ParamSpec) (bd : List (String × PyVal))
      (ep tok fn : String) (v : PyVal),
      dictGet (buildParams qs bd) "moodlewsrestformat" = some v →
      dictGet (handlerParams qs bd ep tok fn) "moodlewsrestformat" = some v) ∧
    (∀ tok : String, tok ≠ "" →
      handlerParams [] [] "/webservice/rest/server.php" tok
          "core_webservice_get_site_info" =
        [("wstoken", .pyStr tok),
          ("wsfunction", .pyStr "core_webservice_get_site_info"),
          ("moodlewsrestformat", .pyStr "json")]) := by
  have hwst : ∀ (p : List (String × PyVal)) (ep fn : String),
      dictGet (injectRestDefaults p ep fn) "wstoken" = dictGet p "wstoken" := by
    intro p ep fn
    unfold injectRestDefaults
    split
    · rw [dictGet_setdefault_ne _ _ _ _ (by decide),
        dictGet_setdefault_ne _ _ _ _ (by decide)]
    · rfl
  refine ⟨?_, ?_, ?_, ?_⟩
  · intro qs bd ep tok fn hauth htok
    unfold handlerParams
    rw [hwst]
    unfold injectToken
    have hc : ¬ is_auth_endpoint (slashPath ep) = true ∧ ¬ tok = "" :=
      ⟨by simp [hauth], htok⟩
    rw [if_pos hc]
    exact dictGet_dictSet_self _ _ _
  · intro qs bd ep tok fn v hv
    unfold handlerParams
    have h1 : dictGet (injectToken (buildParams qs bd) (slashPath ep) tok)
        "wsfunction" = some v := by
      unfold injectToken
      split
      · rw [dictGet_dictSet_ne _ _ _ _ (by decide)]
        exact hv
      · exact hv
    unfold injectRestDefaults
    split
    · rw [dictGet_setdefault_ne _ _ _ _ (by decide)]
      exact dictGet_setdefault_present _ _ _ _ h1
    · exact h1
  · intro qs bd ep tok fn v hv
    unfold handlerParams
    have h1 : dictGet (injectToken (buildParams qs bd) (slashPath ep) tok)
        "moodlewsrestformat" = some v := by
      unfold injectToken
      split
      · rw [dictGet_dictSet_ne _ _ _ _ (by decide)]
        exact hv
      · exact hv
    unfold injectRestDefaults
    split
    · refine dictGet_setdefault_present _ _ _ _ ?_
      rw [dictGet_setdefault_ne _ _ _ _ (by decide)]
      exact h1
    · exact h1
  · intro tok htok
    unfold handlerParams injectRestDefaults injectToken
    have hc2 : ¬ is_auth_endpoint (slashPath "/webservice/rest/server.php") =
        true ∧ ¬ tok = "" := ⟨by decide, htok⟩
    rw [if_pos hc2]
    have hc3 : strEndsWith (slashPath "/webservice/rest/server.php")
        "/webservice/rest/server.php" = true := by decide
    rw [if_pos hc3]
    rfl

/-- C9, witness. -/
theorem handler_token_injection_witness :
    (is_auth_endpoint (slashPath "/webservice/rest/server.php") = false ∧
      ("abc" : String) ≠ "") ∧
    dictGet (handlerParams [] [] "/webservice/rest/server.php" "abc"
        "core_webservice_get_site_info") "wstoken" = some (.pyStr "abc") ∧
    handlerParams [] [] "/webservice/rest/server.php" "abc"
        "core_webservice_get_site_info" =
      [("wstoken", .pyStr "abc"),
        ("wsfunction", .pyStr "core_webservice_get_site_info"),
        ("moodlewsrestformat", .pyStr "json")] :=
  ⟨⟨by decide, by decide⟩,
    handler_token_injection.1 [] [] "/webservice/rest/server.php" "abc"
      "core_webservice_get_site_info" (by decide) (by decide),
    handler_token_injection.2.2.2 "abc" (by decide)⟩

/-! ## Lemmas for Claim C6: the three list input shapes -/

theorem stringMk_data (s : String) : String.mk s.data = s := rfl

theorem isLcLetter_ne (c : Char) (h : isLcLetter c = true) (d : Char)
    (hd : isLcLetter d = false) : c ≠ d := by
  intro he
  subst he
  rw [h] at hd
  cases hd

theorem simpleToken_letters (t : String) (h : simpleToken t = true) :
    t.data ≠ [] ∧ ∀ c ∈ t.data, isLcLetter c = true := by
  simp only [simpleToken, Bool.and_eq_true, Bool.not_eq_true',
    List.isEmpty_eq_false, List.all_eq_true] at h
  obtain ⟨h1, h2⟩ := h
  exact ⟨by simpa using h1, h2⟩

theorem isLcLetter_not_jsonWs (c : Char) (h : isLcLetter c = true) :
    ¬(c = ' ' ∨ c = '\t' ∨ c = '\n' ∨ c = '\r') := by
  rintro (rfl | rfl | rfl | rfl) <;> exact absurd h (by decide)

theorem skipWs_cons_not_ws (c : Char) (r : List Char)
    (h : ¬(c = ' ' ∨ c = '\t' ∨ c = '\n' ∨ c = '\r')) :
    skipWs (c :: r) = c :: r := by
  simp only [skipWs]
  rw [if_neg h]

theorem skipWs_eq_self (cs : List Char)
    (h : ∀ c ∈ cs, ¬(c = ' ' ∨ c = '\t' ∨ c = '\n' ∨ c = '\r')) :
    skipWs cs = cs := by
  cases cs with
  | nil => rfl
  | cons c r => exact skipWs_cons_not_ws c r (h c (by simp))

theorem dropWhile_eq_self_of_all (p : Char → Bool) (cs : List Char)
    (h : ∀ c ∈ cs, p c = false) : cs.dropWhile p = cs := by
  cases cs with
  | nil => rfl
  | cons c r => simp [List.dropWhile_cons, h c (by simp)]

theorem stripChars_eq_self (cs : List Char)
    (h : ∀ c ∈ cs, isPySpace c = false) : stripChars cs = cs := by
  unfold stripChars
  rw [dropWhile_eq_self_of_all _ _ h,
    dropWhile_eq_self_of_all _ _ (fun c hc => h c (List.mem_reverse.mp hc)),
    List.reverse_reverse]

theorem pyStrip_eq_self (s : String)
    (h : ∀ c ∈ s.data, isPySpace c = false) : pyStrip s = s := by
  unfold pyStrip
  rw [stripChars_eq_self _ h]

theorem isLcLetter_le (c : Char) (h : isLcLetter c = true) :
    97 ≤ c.val.toNat ∧ c.val.toNat ≤ 122 := by
  simpa [isLcLetter] using h

theorem isLcLetter_not_pySpace (c : Char) (h : isLcLetter c = true) :
    isPySpace c = false := by
  cases hb : isPySpace c
  · rfl
  · exfalso
    have hv := isLcLetter_le c h
    simp only [isPySpace, Bool.or_eq_true, decide_eq_true_eq] at hb
    rcases hb with ((((hb | hb) | hb) | hb) | hb) | hb <;> subst hb <;>
      exact absurd hv (by decide)

theorem parseJStrAux_closes (cs : List Char) :
    ∀ (acc rest : List Char), (∀ c ∈ cs, c ≠ '"' ∧ c ≠ '\\') →
    parseJStrAux acc (cs ++ '"' :: rest) = some (acc.reverse ++ cs, rest) := by
  induction cs with
  | nil =>
    intro acc rest _
    simp [parseJStrAux]
  | cons c cr ih =>
    intro acc rest h
    have hc := h c (by simp)
    simp only [List.cons_append, parseJStrAux]
    rw [if_neg hc.1, if_neg hc.2]
    have := ih (c :: acc) rest (fun d hd => h d (by simp [hd]))
    rw [show cr.append ('\u0022' :: rest) = cr ++ '\u0022' :: rest from rfl, this]
    simp

theorem parseVal_quoted (fu : Nat) (t : String) (rest : List Char)
    (h : ∀ c ∈ t.data, c ≠ '"' ∧ c ≠ '\\') :
    parseVal (fu + 1) ('"' :: (t.data ++ '"' :: rest)) =
      some (.pyStr t, rest) := by
  simp only [parseVal]
  rw [skipWs_cons_not_ws '"' _ (by decide)]
  simp only [if_pos rfl]
  rw [parseJStrAux_closes t.data [] rest h]
  simp [stringMk_data]

theorem simpleToken_clean (t : String) (h : simpleToken t = true) :
    ∀ c ∈ t.data, c ≠ '"' ∧ c ≠ '\\' := by
  intro c hc
  have hl := (simpleToken_letters t h).2 c hc
  exact ⟨isLcLetter_ne c hl _ (by decide), isLcLetter_ne c hl _ (by decide)⟩

theorem parseVal_succ (fu : Nat) (cs : List Char) :
    parseVal (fu + 1) cs =
      match skipWs cs with
      | [] => none
      | c :: rest =>
        if c = '"' then
          (parseJStrAux [] rest).map (fun p => (.pyStr (String.mk p.1), p.2))
        else if c = '[' then parseArr fu rest
        else if c = '{' then parseObj fu rest
        else if c = 't' then
          match stripLiteral ['r', 'u', 'e'] rest with
          | some r2 => some (.pyBool true, r2)
          | none => none
        else if c = 'f' then
          match stripLiteral ['a', 'l', 's', 'e'] rest with
          | some r2 => some (.pyBool false, r2)
          | none => none
        else if c = 'n' then
          match stripLiteral ['u', 'l', 'l'] rest with
          | some r2 => some (.pyNone, r2)
          | none => none
        else parseJNum (c :: rest) := rfl

theorem parseArr_succ (fu : Nat) (cs : List Char) :
    parseArr (fu + 1) cs =
      match skipWs cs with
      | [] => none
      | c :: rest =>
        if c = ']' then some (.pyList [], rest)
        else (parseElems fu (c :: rest)).map (fun p => (.pyList p.1, p.2)) :=
  rfl

theorem parseElems_succ (fu : Nat) (cs : List Char) :
    parseElems (fu + 1) cs =
      match parseVal fu cs with
      | none => none
      | some (v, r1) =>
        match skipWs r1 with
        | [] => none
        | c :: r2 =>
          if c = ',' then (parseElems fu r2).map (fun p => (v :: p.1, p.2))
          else if c = ']' then some ([v], r2)
          else none := rfl

theorem parseElems_render (ts : List String) :
    ∀ (fu : Nat) (rest : List Char), ts ≠ [] →
      (∀ t ∈ ts, simpleToken t = true) → 2 * ts.length ≤ fu →
      parseElems (fu + 1) (renderElems ts ++ ']' :: rest) =
        some (ts.map .pyStr, rest) := by
  induction ts with
  | nil =>
    intro _ _ h _ _
    exact absurd rfl h
  | cons t tr ih =>
    intro fu rest _ hok hfu
    have hclean := simpleToken_clean t (hok t (by simp))
    cases fu with
    | zero => simp at hfu
    | succ g =>
      rw [parseElems_succ]
      cases tr with
      | nil =>
        have hshape : renderElems [t] ++ ']' :: rest =
            '"' :: (t.data ++ '"' :: ']' :: rest) := by
          simp [renderElems]
        rw [hshape, parseVal_quoted g t (']' :: rest) hclean]
        simp [skipWs_cons_not_ws ']' rest (by decide)]
      | cons t2 tr2 =>
        have hshape : renderElems (t :: t2 :: tr2) ++ ']' :: rest =
            '"' :: (t.data ++ '"' :: ',' ::
              (renderElems (t2 :: tr2) ++ ']' :: rest)) := by
          simp [renderElems]
        rw [hshape, parseVal_quoted g t
            (',' :: (renderElems (t2 :: tr2) ++ ']' :: rest)) hclean]
        have hsw := skipWs_cons_not_ws ','
          (renderElems (t2 :: tr2) ++ ']' :: rest) (by decide)
        have hih := ih g rest (by simp)
          (fun u hu => hok u (by simp [hu]))
          (by simp at hfu ⊢; omega)
        simp [hsw, hih]

theorem renderElems_head (t : String) (tr : List String) :
    ∃ body, renderElems (t :: tr) = '"' :: body ∧
      '"' :: (body ++ ']' :: ([] : List Char)) ++ []
        = renderElems (t :: tr) ++ [']'] := by
  cases tr with
  | nil =>
    exact ⟨t.data ++ ['"'], by simp [renderElems], by simp [renderElems]⟩
  | cons t2 tr2 =>
    exact ⟨t.data ++ '"' :: ',' :: renderElems (t2 :: tr2),
      by simp [renderElems], by simp [renderElems]⟩

theorem parseVal_renderArr (ts : List String) (fu : Nat) (rest : List Char)
    (hok : ∀ t ∈ ts, simpleToken t = true) (hfu : 2 * ts.length + 2 ≤ fu) :
    parseVal (fu + 1) ('[' :: (renderElems ts ++ ']' :: rest)) =
      some (.pyList (ts.map .pyStr), rest) := by
  rw [parseVal_succ, skipWs_cons_not_ws '[' _ (by decide)]
  cases fu with
  | zero => simp at hfu
  | succ g =>
    have hstep : parseArr (g + 1) (renderElems ts ++ ']' :: rest) =
        some (.pyList (ts.map .pyStr), rest) := by
      rw [parseArr_succ]
      cases ts with
      | nil =>
        simp only [renderElems, List.nil_append]
        rw [skipWs_cons_not_ws ']' rest (by decide)]
        simp
      | cons t tr =>
        obtain ⟨body, hb, _⟩ := renderElems_head t tr
        have hfold : ('"' :: (body ++ ']' :: rest) : List Char) =
            renderElems (t :: tr) ++ ']' :: rest := by
          rw [hb, List.cons_append]
        rw [hb, List.cons_append, skipWs_cons_not_ws '"' _ (by decide)]
        simp only [reduceIte]
        rw [hfold]
        have hg : ∃ g2, g = g2 + 1 := by
          refine ⟨g - 1, ?_⟩
          simp at hfu
          omega
        obtain ⟨g2, rfl⟩ := hg
        rw [parseElems_render (t :: tr) g2 rest (by simp) hok
          (by simp at hfu ⊢; omega)]
        simp
    simp [hstep]

theorem len_renderElems (ts : List String) :
    ts.length ≤ (renderElems ts).length := by
  induction ts with
  | nil => simp [renderElems]
  | cons t tr ih =>
    cases tr with
    | nil => simp [renderElems]
    | cons t2 tr2 =>
      simp only [renderElems, List.length_cons, List.length_append] at ih ⊢
      omega

theorem jsonLoads_renderJsonArr (ts : List String)
    (hok : ∀ t ∈ ts, simpleToken t = true) :
    jsonLoads (renderJsonArr ts) = some (.pyList (ts.map .pyStr)) := by
  unfold jsonLoads renderJsonArr
  have hdata : (String.mk ('[' :: renderElems ts ++ [']'])).data =
      '[' :: (renderElems ts ++ ']' :: []) := by
    simp
  rw [hdata]
  have hlen : ('[' :: (renderElems ts ++ ']' :: [])).length =
      (renderElems ts).length + 2 := by
    simp
  rw [hlen]
  have hL := len_renderElems ts
  have harith : 2 * ((renderElems ts).length + 2) + 4 =
      (2 * (renderElems ts).length + 7) + 1 := by omega
  rw [harith]
  rw [parseVal_renderArr ts (2 * (renderElems ts).length + 7) [] hok
    (by omega)]
  simp [skipWs]

theorem stripLiteral_eq_some (lit cs r : List Char)
    (h : stripLiteral lit cs = some r) : cs = lit ++ r := by
  unfold stripLiteral at h
  split at h
  · rename_i htake
    injection h with h2
    subst h2
    conv_lhs => rw [← List.take_append_drop lit.length cs]
    rw [htake]
  · cases h

theorem span_cons_neg (p : Char → Bool) (c : Char) (rest : List Char)
    (h : p c = false) : List.span p (c :: rest) = ([], c :: rest) := by
  simp [List.span, List.span.loop, h]

theorem isLcLetter_not_digit (c : Char) (hc : isLcLetter c = true) :
    isJDigit c = false := by
  cases hb : isJDigit c
  · rfl
  · exfalso
    have hv := isLcLetter_le c hc
    simp [isJDigit] at hb
    omega

theorem parseJNum_letter (c : Char) (rest : List Char)
    (hc : isLcLetter c = true) : parseJNum (c :: rest) = none := by
  have hne : c ≠ '-' := isLcLetter_ne c hc '-' (by decide)
  have hdig := isLcLetter_not_digit c hc
  simp [parseJNum, hne, hdig, span_cons_neg _ _ _ hdig]

theorem parseVal_succ_cons (fu : Nat) (c : Char) (rest cs : List Char)
    (hsw : skipWs cs = c :: rest) :
    parseVal (fu + 1) cs =
      (if c = '"' then
        (parseJStrAux [] rest).map (fun p => (.pyStr (String.mk p.1), p.2))
      else if c = '[' then parseArr fu rest
      else if c = '{' then parseObj fu rest
      else if c = 't' then
        match stripLiteral ['r', 'u', 'e'] rest with
        | some r2 => some (.pyBool true, r2)
        | none => none
      else if c = 'f' then
        match stripLiteral ['a', 'l', 's', 'e'] rest with
        | some r2 => some (.pyBool false, r2)
        | none => none
      else if c = 'n' then
        match stripLiteral ['u', 'l', 'l'] rest with
        | some r2 => some (.pyNone, r2)
        | none => none
      else parseJNum (c :: rest)) := by
  rw [parseVal_succ, hsw]

theorem parseVal_letter_head (fu : Nat) (c : Char) (rest : List Char)
    (hc : isLcLetter c = true) :
    parseVal fu (c :: rest) = none ∨
    ∃ lit r2 v,
      (lit = ['r', 'u', 'e'] ∨ lit = ['a', 'l', 's', 'e'] ∨
        lit = ['u', 'l', 'l']) ∧
      rest = lit ++ r2 ∧
      (v = PyVal.pyBool true ∨ v = PyVal.pyBool false ∨ v = PyVal.pyNone) ∧
      parseVal fu (c :: rest) = some (v, r2) := by
  cases fu with
  | zero => exact Or.inl rfl
  | succ g =>
    rw [parseVal_succ_cons g c rest (c :: rest)
        (skipWs_cons_not_ws c rest (isLcLetter_not_jsonWs c hc)),
      if_neg (isLcLetter_ne c hc '"' (by decide)),
      if_neg (isLcLetter_ne c hc '[' (by decide)),
      if_neg (isLcLetter_ne c hc '{' (by decide))]
    by_cases ht : c = 't'
    · rw [if_pos ht]
      cases hsl : stripLiteral ['r', 'u', 'e'] rest with
      | none => exact Or.inl rfl
      | some r2 =>
        exact Or.inr ⟨['r', 'u', 'e'], r2, .pyBool true, Or.inl rfl,
          stripLiteral_eq_some _ _ _ hsl, Or.inl rfl, rfl⟩
    · rw [if_neg ht]
      by_cases hf : c = 'f'
      · rw [if_pos hf]
        cases hsl : stripLiteral ['a', 'l', 's', 'e'] rest with
        | none => exact Or.inl rfl
        | some r2 =>
          exact Or.inr ⟨['a', 'l', 's', 'e'], r2, .pyBool false,
            Or.inr (Or.inl rfl), stripLiteral_eq_some _ _ _ hsl,
            Or.inr (Or.inl rfl), rfl⟩
      · rw [if_neg hf]
        by_cases hn : c = 'n'
        · rw [if_pos hn]
          cases hsl : stripLiteral ['u', 'l', 'l'] rest with
          | none => exact Or.inl rfl
          | some r2 =>
            exact Or.inr ⟨['u', 'l', 'l'], r2, .pyNone,
              Or.inr (Or.inr rfl), stripLiteral_eq_some _ _ _ hsl,
              Or.inr (Or.inr rfl), rfl⟩
        · rw [if_neg hn]
          exact Or.inl (parseJNum_letter c rest hc)

theorem commaJoinChars_chars (ts : List String)
    (hok : ∀ t ∈ ts, simpleToken t = true) :
    ∀ c ∈ commaJoinChars ts, isLcLetter c = true ∨ c = ',' := by
  induction ts with
  | nil => simp [commaJoinChars]
  | cons t tr ih =>
    cases tr with
    | nil =>
      intro c hcm
      simp only [commaJoinChars] at hcm
      exact Or.inl ((simpleToken_letters t (hok t (by simp))).2 c hcm)
    | cons t2 tr2 =>
      intro c hcm
      simp only [commaJoinChars, List.mem_append, List.mem_cons] at hcm
      rcases hcm with h | h | h
      · exact Or.inl ((simpleToken_letters t (hok t (by simp))).2 c h)
      · exact Or.inr h
      · exact ih (fun u hu => hok u (by simp [hu])) c
          (by simpa [commaJoinChars] using h)

theorem jsonLoads_commaJoin_multi (t t2 : String) (tr : List String)
    (hok : ∀ u ∈ t :: t2 :: tr, simpleToken u = true) :
    jsonLoads (commaJoin (t :: t2 :: tr)) = none := by
  unfold jsonLoads commaJoin
  obtain ⟨c, td, htd⟩ : ∃ c td, t.data = c :: td := by
    cases h : t.data with
    | nil => exact absurd h (simpleToken_letters t (hok t (by simp))).1
    | cons a b => exact ⟨a, b, rfl⟩
  have hc : isLcLetter c = true :=
    (simpleToken_letters t (hok t (by simp))).2 c (by rw [htd]; simp)
  have hsplit : commaJoinChars (t :: t2 :: tr) =
      c :: (td ++ ',' :: commaJoinChars (t2 :: tr)) := by
    simp [commaJoinChars, htd]
  rw [show (String.mk (commaJoinChars (t :: t2 :: tr))).data =
    commaJoinChars (t :: t2 :: tr) from rfl, hsplit]
  rcases parseVal_letter_head
      (2 * (c :: (td ++ ',' :: commaJoinChars (t2 :: tr))).length + 4) c
      (td ++ ',' :: commaJoinChars (t2 :: tr)) hc with
    hnone | ⟨lit, r2, v, hlit, hrest, _, hsome⟩
  · rw [hnone]
  · rw [hsome]
    have hcomma_mem : ',' ∈ td ++ ',' :: commaJoinChars (t2 :: tr) := by
      simp
    have hlit_no_comma : ',' ∉ lit := by
      rcases hlit with rfl | rfl | rfl <;> decide
    have hr2 : ',' ∈ r2 := by
      rw [hrest] at hcomma_mem
      rcases List.mem_append.mp hcomma_mem with h | h
      · exact absurd h hlit_no_comma
      · exact h
    have hr2chars : ∀ d ∈ r2, isLcLetter d = true ∨ d = ',' := by
      intro d hd
      apply commaJoinChars_chars (t :: t2 :: tr) hok
      rw [hsplit]
      simp only [List.mem_cons]
      right
      rw [hrest]
      exact List.mem_append_right _ hd
    have hnows : ∀ d ∈ r2, ¬(d = ' ' ∨ d = '\t' ∨ d = '\n' ∨ d = '\r') := by
      intro d hd
      rcases hr2chars d hd with hl | rfl
      · exact isLcLetter_not_jsonWs d hl
      · decide
    have hne : r2 ≠ [] := by
      intro h
      rw [h] at hr2
      cases hr2
    simp [skipWs_eq_self r2 hnows, hne]

theorem splitOnChar_no_sep (sep : Char) (cs : List Char)
    (h : ∀ c ∈ cs, c ≠ sep) : splitOnChar sep cs = [cs] := by
  induction cs with
  | nil => rfl
  | cons c r ih =>
    simp only [splitOnChar]
    rw [if_neg (h c (by simp)), ih (fun d hd => h d (by simp [hd]))]

theorem splitOnChar_append (sep : Char) (pre suf : List Char)
    (h : ∀ c ∈ pre, c ≠ sep) :
    splitOnChar sep (pre ++ sep :: suf) = pre :: splitOnChar sep suf := by
  induction pre with
  | nil => simp [splitOnChar]
  | cons c pr ih =>
    simp only [List.cons_append, splitOnChar, List.append_eq]
    rw [if_neg (h c (by simp)), ih (fun d hd => h d (by simp [hd]))]

theorem simpleToken_no_comma (t : String) (h : simpleToken t = true) :
    ∀ c ∈ t.data, c ≠ ',' := fun c hc =>
  isLcLetter_ne c ((simpleToken_letters t h).2 c hc) ',' (by decide)

theorem simpleToken_ne_empty (t : String) (h : simpleToken t = true) :
    t ≠ "" := fun he => (simpleToken_letters t h).1 (by rw [he])

theorem splitOnChar_commaJoin (ts : List String)
    (hok : ∀ t ∈ ts, simpleToken t = true) (hne : ts ≠ []) :
    splitOnChar ',' (commaJoinChars ts) = ts.map String.data := by
  induction ts with
  | nil => exact absurd rfl hne
  | cons t tr ih =>
    cases tr with
    | nil =>
      show splitOnChar ',' t.data = [t.data]
      exact splitOnChar_no_sep ',' t.data
        (simpleToken_no_comma t (hok t (by simp)))
    | cons t2 tr2 =>
      show splitOnChar ',' (t.data ++ ',' :: commaJoinChars (t2 :: tr2)) = _
      rw [splitOnChar_append ',' t.data (commaJoinChars (t2 :: tr2))
        (simpleToken_no_comma t (hok t (by simp)))]
      rw [ih (fun u hu => hok u (by simp [hu])) (by simp)]
      rfl

theorem jsonLoads_letters (t : String) (hok : simpleToken t = true) :
    jsonLoads t = none ∨ ∃ v, jsonLoads t = some v ∧
      (v = PyVal.pyBool true ∨ v = PyVal.pyBool false ∨ v = PyVal.pyNone) := by
  unfold jsonLoads
  obtain ⟨c, td, htd⟩ : ∃ c td, t.data = c :: td := by
    cases h : t.data with
    | nil => exact absurd h (simpleToken_letters t hok).1
    | cons a b => exact ⟨a, b, rfl⟩
  have hc : isLcLetter c = true :=
    (simpleToken_letters t hok).2 c (by rw [htd]; simp)
  rw [htd]
  rcases parseVal_letter_head (2 * (c :: td).length + 4) c td hc with
    hnone | ⟨lit, r2, v, _, _, hv, hsome⟩
  · rw [hnone]
    exact Or.inl rfl
  · rw [hsome]
    by_cases hemp : skipWs r2 = []
    · exact Or.inr ⟨v, by simp [hemp], hv⟩
    · exact Or.inl (by simp [hemp])

theorem parse_list_value_commaJoin (ts : List String)
    (hok : ∀ t ∈ ts, simpleToken t = true) :
    parse_list_value (.pyStr (commaJoin ts)) = ts.map .pyStr := by
  cases ts with
  | nil => rfl
  | cons t tr =>
    have hts := simpleToken_letters t (hok t (by simp))
    cases tr with
    | nil =>
      have hstr : commaJoin [t] = t := rfl
      rw [hstr]
      simp only [parse_list_value]
      rw [pyStrip_eq_self t
        (fun c hc => isLcLetter_not_pySpace c (hts.2 c hc))]
      rw [if_neg (simpleToken_ne_empty t (hok t (by simp)))]
      have hnc : t.data.contains ',' = false := by
        cases hb : t.data.contains ','
        · rfl
        · exfalso
          have hmem : ',' ∈ t.data := by
            have := List.elem_iff.mp hb
            exact this
          exact absurd (hts.2 ',' hmem) (by decide)
      rcases jsonLoads_letters t (hok t (by simp)) with hj | ⟨v, hj, hv⟩
      · rw [hj, hnc]
        simp
      · rw [hj]
        rcases hv with rfl | rfl | rfl <;> rfl
    | cons t2 tr2 =>
      have hchars := commaJoinChars_chars (t :: t2 :: tr2) hok
      simp only [parse_list_value]
      rw [pyStrip_eq_self (commaJoin (t :: t2 :: tr2)) (by
        intro c hc2
        rcases hchars c hc2 with hl | rfl
        · exact isLcLetter_not_pySpace c hl
        · decide)]
      have hmem : ',' ∈ (commaJoin (t :: t2 :: tr2)).data := by
        show ',' ∈ commaJoinChars (t :: t2 :: tr2)
        show ',' ∈ t.data ++ ',' :: commaJoinChars (t2 :: tr2)
        simp
      rw [if_neg (show ¬ commaJoin (t :: t2 :: tr2) = "" by
        intro h
        rw [h] at hmem
        cases hmem)]
      rw [jsonLoads_commaJoin_multi t t2 tr2 hok]
      rw [if_pos (show (commaJoin (t :: t2 :: tr2)).data.contains ',' = true
        from List.elem_iff.mpr hmem)]
      show ((((splitOnChar ',' (commaJoinChars (t :: t2 :: tr2))).map
        (fun p => String.mk (stripChars p))).filter
          (fun p => p ≠ "")).map PyVal.pyStr) = _
      rw [splitOnChar_commaJoin (t :: t2 :: tr2) hok (by simp)]
      rw [List.map_map]
      have hid : ((t :: t2 :: tr2).map
          ((fun p => String.mk (stripChars p)) ∘ String.data)) =
          t :: t2 :: tr2 := by
        have hcg : ∀ u ∈ t :: t2 :: tr2,
            ((fun p => String.mk (stripChars p)) ∘ String.data) u = id u := by
          intro u hu
          have hu2 := simpleToken_letters u (hok u hu)
          simp only [Function.comp, id]
          rw [stripChars_eq_self u.data
            (fun c hc => isLcLetter_not_pySpace c (hu2.2 c hc))]
        rw [List.map_congr_left hcg, List.map_id]
      rw [hid]
      have hfil : (t :: t2 :: tr2).filter (fun p => p ≠ "") =
          t :: t2 :: tr2 := by
        rw [List.filter_eq_self]
        intro u hu
        simp [simpleToken_ne_empty u (hok u hu)]
      rw [hfil]

theorem renderJsonArr_chars (ts : List String)
    (hok : ∀ t ∈ ts, simpleToken t = true) :
    ∀ c ∈ (renderJsonArr ts).data,
      c = '[' ∨ c = ']' ∨ c = '"' ∨ c = ',' ∨ isLcLetter c = true := by
  have hre : ∀ us, (∀ t ∈ us, simpleToken t = true) →
      ∀ c ∈ renderElems us, c = '"' ∨ c = ',' ∨ isLcLetter c = true := by
    intro us
    induction us with
    | nil => simp [renderElems]
    | cons u ur ih =>
      intro hoku c hcm
      cases ur with
      | nil =>
        have hsh : renderElems [u] = '"' :: (u.data ++ ['"']) := by
          simp [renderElems]
        rw [hsh] at hcm
        rcases List.mem_cons.mp hcm with rfl | h2
        · exact Or.inl rfl
        · rcases List.mem_append.mp h2 with h3 | h3
          · exact Or.inr (Or.inr
              ((simpleToken_letters u (hoku u (by simp))).2 c h3))
          · rw [List.mem_singleton.mp h3]
            exact Or.inl rfl
      | cons u2 ur2 =>
        have hsh : renderElems (u :: u2 :: ur2) =
            '"' :: (u.data ++ '"' :: ',' :: renderElems (u2 :: ur2)) := by
          simp [renderElems]
        rw [hsh] at hcm
        rcases List.mem_cons.mp hcm with rfl | h2
        · exact Or.inl rfl
        · rcases List.mem_append.mp h2 with h3 | h3
          · exact Or.inr (Or.inr
              ((simpleToken_letters u (hoku u (by simp))).2 c h3))
          · rcases List.mem_cons.mp h3 with rfl | h4
            · exact Or.inl rfl
            · rcases List.mem_cons.mp h4 with rfl | h5
              · exact Or.inr (Or.inl rfl)
              · exact ih (fun w hw => hoku w (by simp [hw])) c h5
  intro c hcm
  have hmem : c ∈ ('[' :: (renderElems ts ++ [']']) : List Char) := by
    have hd : (renderJsonArr ts).data =
        '[' :: (renderElems ts ++ [']']) := by
      simp [renderJsonArr]
    rwa [hd] at hcm
  rcases List.mem_cons.mp hmem with rfl | h2
  · exact Or.inl rfl
  · rcases List.mem_append.mp h2 with h3 | h3
    · rcases hre ts hok c h3 with h4 | h4 | h4
      · exact Or.inr (Or.inr (Or.inl h4))
      · exact Or.inr (Or.inr (Or.inr (Or.inl h4)))
      · exact Or.inr (Or.inr (Or.inr (Or.inr h4)))
    · rw [List.mem_singleton.mp h3]
      exact Or.inr (Or.inl rfl)

theorem parse_list_value_renderJsonArr (ts : List String)
    (hok : ∀ t ∈ ts, simpleToken t = true) :
    parse_list_value (.pyStr (renderJsonArr ts)) = ts.map .pyStr := by
  simp only [parse_list_value]
  rw [pyStrip_eq_self (renderJsonArr ts) (by
    intro c hc
    rcases renderJsonArr_chars ts hok c hc with rfl | rfl | rfl | rfl | hl
    · decide
    · decide
    · decide
    · decide
    · exact isLcLetter_not_pySpace c hl)]
  rw [if_neg (show ¬ renderJsonArr ts = "" by
    intro h
    have := congrArg String.data h
    simp [renderJsonArr] at this)]
  rw [jsonLoads_renderJsonArr ts hok]

/-! ## Claim C6 -/

set_option maxRecDepth 8000

/-- C6: a list of equal elements presented as a comma-separated string, a
JSON array string, or a native list encodes to the same flat key/value
set. Stated for every list of simple tokens (nonempty lowercase-letter
strings — the shape for which the three input forms present equal
elements), plus the concrete `tags[0]=a, tags[1]=b` example in all three
shapes. -/
theorem list_shapes_encode_equal (n : String) (ts : List String)
    (hok : ∀ t ∈ ts, simpleToken t = true) :
    encode_param [] n (.pyStr (commaJoin ts)) "list" =
      encode_param [] n (.pyList (ts.map .pyStr)) "list" ∧
    encode_param [] n (.pyStr (renderJsonArr ts)) "list" =
      encode_param [] n (.pyList (ts.map .pyStr)) "list" ∧
    encode_param [] "tags" (.pyStr "a,b") "list" =
      [("tags[0]", .pyStr "a"), ("tags[1]", .pyStr "b")] ∧
    encode_param [] "tags" (.pyStr "[\"a\",\"b\"]") "list" =
      [("tags[0]", .pyStr "a"), ("tags[1]", .pyStr "b")] ∧
    encode_param [] "tags" (.pyList [.pyStr "a", .pyStr "b"]) "list" =
      [("tags[0]", .pyStr "a"), ("tags[1]", .pyStr "b")] := by
  have he : ∀ v, encode_param [] n v "list" =
      encodeListLoop n [] 0 (parse_list_value v) := fun _ => rfl
  refine ⟨?_, ?_, rfl, rfl, rfl⟩
  · rw [he, he, parse_list_value_commaJoin ts hok]
    rfl
  · rw [he, he, parse_list_value_renderJsonArr ts hok]
    rfl

/-- C6, witness. -/
theorem list_shapes_encode_equal_witness :
    (∀ t ∈ (["a", "b"] : List String), simpleToken t = true) ∧
    (encode_param [] "tags" (.pyStr (commaJoin ["a", "b"])) "list" =
      encode_param [] "tags" ((["a", "b"] : List String).map .pyStr
        |> .pyList) "list" ∧
    encode_param [] "tags" (.pyStr (renderJsonArr ["a", "b"])) "list" =
      encode_param [] "tags" ((["a", "b"] : List String).map .pyStr
        |> .pyList) "list" ∧
    encode_param [] "tags" (.pyStr "a,b") "list" =
      [("tags[0]", .pyStr "a"), ("tags[1]", .pyStr "b")] ∧
    encode_param [] "tags" (.pyStr "[\"a\",\"b\"]") "list" =
      [("tags[0]", .pyStr "a"), ("tags[1]", .pyStr "b")] ∧
    encode_param [] "tags" ((["a", "b"] : List String).map .pyStr
        |> .pyList) "list" =
      [("tags[0]", .pyStr "a"), ("tags[1]", .pyStr "b")]) :=
  ⟨by decide, list_shapes_encode_equal "tags" ["a", "b"] (by decide)⟩

end Moodleware
